import Mathlib

/-!
Verification development for the `ff` flag-resolution library.

The Go sources embedded here are `parse.go` (the three-phase `Parse`
resolver, its name mapping, and its option constructors) and the
line-oriented example config reader `EnvParser`.  Pure functions become
Lean functions; `Parse`'s in-place mutation of the `flag.FlagSet`
becomes explicit state passing; process state (`os.Getenv`, `os.Open`)
becomes function parameters.  Strings are handled at the level of their
character lists; Go's Unicode-aware `strings.ToUpper` / `TrimSpace`
are modelled on their ASCII fragment, which covers every string the
library manipulates in the claims.
-/

namespace FF

/-- ASCII fragment of Go `strings.ToUpper` applied to one character. -/
def asciiUpper (c : Char) : Char :=
  if 97 ≤ c.toNat ∧ c.toNat ≤ 122 then Char.ofNat (c.toNat - 32) else c

/-- Go `strings.ToUpper` (ASCII fragment). -/
def goToUpper (s : String) : String :=
  String.mk (s.data.map asciiUpper)

/-- The replacer `strings.NewReplacer("-", "_", ".", "_", "/", "_")`
from `parse.go` applied to one character. -/
def sepToUnderscore (c : Char) : Char :=
  if c = '-' ∨ c = '.' ∨ c = '/' then '_' else c

/-- Go `flagNameToEnvVar.Replace` from `parse.go`: every `-`, `.` and `/`
becomes `_`. -/
def flagNameToEnvVar (s : String) : String :=
  String.mk (s.data.map sepToUnderscore)

/-- Function `maybePrefix(key, noPrefix, prefix)` from `parse.go`. -/
def maybePrefixed (key : String) (np : Bool) (preStr : String) : String :=
  if np ∨ preStr = "" then key else goToUpper preStr ++ "_" ++ key

/-- The env-var key derivation performed per flag in `Parse`
(lines 29-32 of `parse.go`): uppercase, replace separators, prefix. -/
def envKeyOf (np : Bool) (preStr : String) (name : String) : String :=
  maybePrefixed (flagNameToEnvVar (goToUpper name)) np preStr

/-- One step of Go `strings.Split` scanning: `splitAux sep fuel s acc`
accumulates the current field in `acc` (reversed).  The fuel argument
only serves termination; `fuel = s.length + 1` always suffices because
a non-empty separator consumes at least one character per match. -/
def splitAux (sep : List Char) : Nat → List Char → List Char → List (List Char)
  | _, [], acc => [acc.reverse]
  | 0, s, acc => [acc.reverse ++ s]
  | Nat.succ fuel, c :: rest, acc =>
    if sep.isPrefixOf (c :: rest) then
      acc.reverse :: splitAux sep fuel ((c :: rest).drop sep.length) []
    else
      splitAux sep fuel rest (c :: acc)

/-- Go `strings.Split(value, sep)` for a non-empty separator (the only
way the library calls it: `maybeSplit` guards the empty case). -/
def goSplit (value sep : String) : List String :=
  if sep.data = [] then [value]
  else (splitAux sep.data (value.data.length + 1) value.data []).map fun l => String.mk l

/-- Function `maybeSplit(value, split)` from `parse.go`. -/
def maybeSplit (value split : String) : List String :=
  if split = "" then [value] else goSplit value split

/-- A registered flag: its unique name and current value.  Go flag
identity (`*flag.Flag` pointer equality) coincides with name equality
because a `flag.FlagSet` refuses duplicate names. -/
structure Flg where
  name  : String
  value : String
deriving DecidableEq, Repr

/-- The external `flag.FlagSet` registry state: the registered flags in
`VisitAll` order (lexical by name in Go) and the names recorded as
explicitly set so far (`fs.actual`, what `fs.Visit` enumerates). -/
structure FlagSet where
  flags  : List Flg
  actual : List String
deriving DecidableEq, Repr

/-- Method `fs.Lookup(name)`. -/
def FlagSet.lookup (fs : FlagSet) (name : String) : Option Flg :=
  fs.flags.find? (fun f => f.name == name)

/-- Method `fs.Set(name, value)`: fails for an unknown flag or when the flag's
`Value.Set` rejects the value (the per-flag validator is the `setOk`
parameter); on success it stores the value and records the flag as set.
The stored value is last-write-wins, the behavior of plain string-backed
flag values. -/
def FlagSet.set (setOk : String → String → Bool) (fs : FlagSet)
    (name value : String) : Except String FlagSet :=
  match fs.lookup name with
  | none => Except.error ("no such flag " ++ name)
  | some _ =>
    if setOk name value then
      Except.ok
        ⟨fs.flags.map fun f => if f.name == name then ⟨f.name, value⟩ else f,
         fs.actual ++ [name]⟩
    else
      Except.error ("invalid value " ++ value)

/-- The errors `Parse` can return, one constructor per distinct return
site of `parse.go` (§7 of the spec names the same kinds). -/
inductive ParseError where
  | commandlineParse (msg : String)
  | internalPanic (flag : String)
  | envSet (flag key : String)
  | configFileOpen (path : String)
  | configFileParse (msg : String)
  | configFlagUndefined (name : String)
  | configFlagAmbiguous (name first second : String)
  | configSet (name : String)
deriving DecidableEq, Repr

/-- The `flag2env` map built at the top of `Parse` (lines 26-35),
keyed by flag identity (= name): association lookup. -/
def flag2envLookup (flags0 : List Flg) (np : Bool) (preStr : String)
    (name : String) : Option String :=
  ((flags0.map fun f => (f.name, envKeyOf np preStr f.name)).find?
    (fun p => p.1 == name)).map (fun p => p.2)

/-- The `env2flag` map built at the top of `Parse`: Go map insertion
overwrites, so the binding for a key is the LAST flag (in `VisitAll`
order) whose derived env key equals it.  Returns the flag's name. -/
def env2flagLookup (flags0 : List Flg) (np : Bool) (preStr : String)
    (key : String) : Option String :=
  (((flags0.map fun f => (envKeyOf np preStr f.name, f.name)).reverse).find?
    (fun p => p.1 == key)).map (fun p => p.2)

/-- The inner loop of `Parse`'s environment phase (lines 70-75): apply
each split token as a separate `fs.Set` call, aborting on the first
failure with the error built at line 72.  Also returns the trace of
successful `Set` calls as (flag name, value) pairs. -/
def setEnvTokens (setOk : String → String → Bool) (name key : String) :
    FlagSet → List String → Except ParseError (FlagSet × List (String × String))
  | fs, [] => Except.ok (fs, [])
  | fs, v :: vs =>
    match fs.set setOk name v with
    | Except.error _ => Except.error (ParseError.envSet name key)
    | Except.ok fs1 =>
      match setEnvTokens setOk name key fs1 vs with
      | Except.error e => Except.error e
      | Except.ok (fs2, tr) => Except.ok (fs2, (name, v) :: tr)

/-- The `fs.VisitAll` loop of the environment phase (lines 51-76),
iterating the flag list `fl`: skip flags already provided, panic if the
flag is missing from `flag2env` (modelled as the `internalPanic` error),
skip empty env values, otherwise apply the (possibly split) value. -/
def envVisit (setOk : String → String → Bool) (env : String → String)
    (split : String) (flags0 : List Flg) (np : Bool) (preStr : String)
    (provided : List String) :
    FlagSet → List Flg → Except ParseError (FlagSet × List (String × String))
  | fs, [] => Except.ok (fs, [])
  | fs, f :: fl =>
    if f.name ∈ provided then
      envVisit setOk env split flags0 np preStr provided fs fl
    else
      match flag2envLookup flags0 np preStr f.name with
      | none => Except.error (ParseError.internalPanic f.name)
      | some key =>
        if env key = "" then
          envVisit setOk env split flags0 np preStr provided fs fl
        else
          match setEnvTokens setOk f.name key fs (maybeSplit (env key) split) with
          | Except.error e => Except.error e
          | Except.ok (fs1, tr) =>
            match envVisit setOk env split flags0 np preStr provided fs1 fl with
            | Except.error e => Except.error e
            | Except.ok (fs2, tr2) => Except.ok (fs2, tr ++ tr2)

/-- Phase B over the whole flag set. -/
def envPhase (setOk : String → String → Bool) (env : String → String)
    (split : String) (flags0 : List Flg) (np : Bool) (preStr : String)
    (provided : List String) (fs : FlagSet) :
    Except ParseError (FlagSet × List (String × String)) :=
  envVisit setOk env split flags0 np preStr provided fs fs.flags

/-- Phase A application of command-line assignments.  The native
argument parsing of the external `flag.FlagSet` is out of scope (spec
§1, §6); it is modelled by the list of (flag, value) assignments the
native parser performs via `Set`, any of whose failures aborts `Parse`
at line 38-40. -/
def applyArgs (setOk : String → String → Bool) :
    FlagSet → List (String × String) → Except ParseError FlagSet
  | fs, [] => Except.ok fs
  | fs, (n, v) :: rest =>
    match fs.set setOk n v with
    | Except.error _ => Except.error (ParseError.commandlineParse n)
    | Except.ok fs1 => applyArgs setOk fs1 rest

/-- Phase A: `fs.Parse(args)` (line 38).  `none` models a syntax
failure of the native parser; `some l` models success applying the
assignments `l`. -/
def cmdlinePhase (setOk : String → String → Bool) (fs : FlagSet)
    (args : Option (List (String × String))) : Except ParseError FlagSet :=
  match args with
  | none => Except.error (ParseError.commandlineParse ("bad args"))
  | some l => applyArgs setOk fs l

/-- Outcome of `os.Open` on the resolved config path: success with the
file's contents, a does-not-exist error, or any other open error. -/
inductive FileResult where
  | ok (content : String)
  | notExist
  | otherError (msg : String)

/-- A conforming `ConfigFileParser` (spec §6): from the file contents it
yields the (name, value) entries it passes to the sink, in order, and
optionally its own error, reported after those entries (a conforming
reader stops at its first error).  Sink errors cut the entry sequence
short, which the driver `configEntries` performs. -/
def Reader : Type := String → List (String × String) × Option String

/-- The run options assembled by the `Option` constructors of
`parse.go` (struct `Context`).  `configFileVia` models the `*string`
(`none` = nil pointer); `configFileParserFn` models the possibly-nil
parser function. -/
structure Context where
  configFileVia          : Option String
  configFileFlagName     : String
  configFileParserFn     : Option Reader
  allowMissingConfigFile : Bool
  envVarPrefixStr        : String
  envVarNoPrefixB        : Bool
  envVarSplit            : String
  ignoreUndefined        : Bool

/-- Lines 139-147 of `parse.go`: once the dual lookup has picked the
flag named `fname` for config entry `(name, value)`, skip if that flag
is already provided, otherwise `Set` it (a failure becomes the
config-set error naming the raw config key). -/
def useFlag (setOk : String → String → Bool) (provided : List String)
    (fs : FlagSet) (name fname value : String) :
    Except ParseError (FlagSet × List (String × String)) :=
  if fname ∈ provided then Except.ok (fs, [])
  else
    match fs.set setOk fname value with
    | Except.error _ => Except.error (ParseError.configSet name)
    | Except.ok fs1 => Except.ok (fs1, [(fname, value)])

/-- The sink callback of the config phase (lines 114-147): skip entries
whose name is provided, then the dual lookup (`fs.Lookup(name)` and
`env2flag[name]`) with the six-case combine switch of lines 124-137. -/
def configStep (setOk : String → String → Bool) (ignoreU : Bool)
    (flags0 : List Flg) (np : Bool) (preStr : String)
    (provided : List String) (fs : FlagSet) (name value : String) :
    Except ParseError (FlagSet × List (String × String)) :=
  if name ∈ provided then Except.ok (fs, [])
  else
    match fs.lookup name, env2flagLookup flags0 np preStr name with
    | none, none =>
      if ignoreU then Except.ok (fs, [])
      else Except.error (ParseError.configFlagUndefined name)
    | some g, none => useFlag setOk provided fs name g.name value
    | none, some n2 => useFlag setOk provided fs name n2 value
    | some g, some n2 =>
      if g.name = n2 then useFlag setOk provided fs name g.name value
      else Except.error (ParseError.configFlagAmbiguous name g.name n2)

/-- The reader's sink calls in source order: fold `configStep` over the
entries, stopping at the first error, accumulating the `Set` trace. -/
def configEntries (setOk : String → String → Bool) (ignoreU : Bool)
    (flags0 : List Flg) (np : Bool) (preStr : String)
    (provided : List String) :
    FlagSet → List (String × String) →
      Except ParseError (FlagSet × List (String × String))
  | fs, [] => Except.ok (fs, [])
  | fs, (n, v) :: rest =>
    match configStep setOk ignoreU flags0 np preStr provided fs n v with
    | Except.error e => Except.error e
    | Except.ok (fs1, tr) =>
      match configEntries setOk ignoreU flags0 np preStr provided fs1 rest with
      | Except.error e => Except.error e
      | Except.ok (fs2, tr2) => Except.ok (fs2, tr ++ tr2)

/-- The config-file path resolution of lines 87-96: the `configFileVia`
pointer's value if set and non-empty, else the current value of the
designated config-file flag when one is named and registered, else
empty (phase skipped). -/
def resolveConfigFile (via : Option String) (flagName : String)
    (fs : FlagSet) : String :=
  let c := via.getD ("")
  if c = "" ∧ flagName ≠ "" then
    match fs.lookup flagName with
    | some f => f.value
    | none => c
  else c

/-- Phase C (lines 86-158): resolve the path; run only when a path is
resolved and a parser is configured; open the file, tolerating a
missing file exactly when `allowMissingConfigFile` is set; feed the
reader's entries through the sink; a sink error returns as-is, a
reader error returns as the config-file-parse error. -/
def configPhase (setOk : String → String → Bool) (fsys : String → FileResult)
    (flags0 : List Flg) (ctx : Context) (provided : List String)
    (fs : FlagSet) : Except ParseError (FlagSet × List (String × String)) :=
  match ctx.configFileParserFn with
  | none => Except.ok (fs, [])
  | some reader =>
    if resolveConfigFile ctx.configFileVia ctx.configFileFlagName fs = "" then
      Except.ok (fs, [])
    else
      match fsys (resolveConfigFile ctx.configFileVia ctx.configFileFlagName fs) with
      | FileResult.ok content =>
        match configEntries setOk ctx.ignoreUndefined flags0 ctx.envVarNoPrefixB
            ctx.envVarPrefixStr provided fs (reader content).1 with
        | Except.error e => Except.error e
        | Except.ok (fs1, tr) =>
          match (reader content).2 with
          | some m => Except.error (ParseError.configFileParse m)
          | none => Except.ok (fs1, tr)
      | FileResult.notExist =>
        if ctx.allowMissingConfigFile then Except.ok (fs, [])
        else Except.error (ParseError.configFileOpen
          (resolveConfigFile ctx.configFileVia ctx.configFileFlagName fs))
      | FileResult.otherError m => Except.error (ParseError.configFileOpen m)

/-- The `parseEnv` guard of line 48 wrapped around phase B. -/
def envPhaseIfEnabled (setOk : String → String → Bool) (env : String → String)
    (ctx : Context) (flags0 : List Flg) (provided : List String)
    (fs : FlagSet) : Except ParseError (FlagSet × List (String × String)) :=
  if ctx.envVarPrefixStr ≠ "" ∨ ctx.envVarNoPrefixB then
    envPhase setOk env ctx.envVarSplit flags0 ctx.envVarNoPrefixB
      ctx.envVarPrefixStr provided fs
  else Except.ok (fs, [])

/-- The intermediate states of a successful `Parse` run, for stating
per-phase properties: flag-set state, provided set and `Set` trace
after each phase.  `provided` is rebuilt from `fs.Visit` after each
phase (lines 42-45, 82-84, 160-162); membership, not order, is its
meaning (Go stores it as a map). -/
structure ParseTrace where
  fsA       : FlagSet
  providedA : List String
  fsB       : FlagSet
  envTr     : List (String × String)
  providedB : List String
  fsC       : FlagSet
  cfgTr     : List (String × String)
  providedC : List String
deriving Repr

/-- The whole of `Parse` (lines 20-165), instrumented to return the
intermediate states.  The env-key maps are built from the flag set as
passed in (lines 26-35, before phase A). -/
def ParseDetail (setOk : String → String → Bool) (env : String → String)
    (fsys : String → FileResult) (ctx : Context) (fs : FlagSet)
    (args : Option (List (String × String))) : Except ParseError ParseTrace :=
  match cmdlinePhase setOk fs args with
  | Except.error e => Except.error e
  | Except.ok fsA =>
    match envPhaseIfEnabled setOk env ctx fs.flags fsA.actual fsA with
    | Except.error e => Except.error e
    | Except.ok (fsB, envTr) =>
      match configPhase setOk fsys fs.flags ctx (fsA.actual ++ fsB.actual) fsB with
      | Except.error e => Except.error e
      | Except.ok (fsC, cfgTr) =>
        Except.ok ⟨fsA, fsA.actual, fsB, envTr, fsA.actual ++ fsB.actual, fsC, cfgTr,
          (fsA.actual ++ fsB.actual) ++ fsC.actual⟩

/-- Function `Parse` as the caller sees it: the error, or the final flag set. -/
def Parse (setOk : String → String → Bool) (env : String → String)
    (fsys : String → FileResult) (ctx : Context) (fs : FlagSet)
    (args : Option (List (String × String))) : Except ParseError FlagSet :=
  match ParseDetail setOk env fsys ctx fs args with
  | Except.error e => Except.error e
  | Except.ok t => Except.ok t.fsC

/-! ### The example line-oriented reader `EnvParser` -/

/-- Whitespace as trimmed by Go `strings.TrimSpace` (ASCII fragment of
`unicode.IsSpace`): space, tab, newline, vertical tab, form feed,
carriage return. -/
def isGoSpace (c : Char) : Bool :=
  c.toNat = 32 ∨ (9 ≤ c.toNat ∧ c.toNat ≤ 13)

/-- Go `strings.TrimSpace` (ASCII fragment), on character lists. -/
def goTrimSpace (l : List Char) : List Char :=
  ((l.dropWhile isGoSpace).reverse.dropWhile isGoSpace).reverse

/-- Go `strings.IndexRune(line, c)` followed by the two slices
`line[:index]` and `line[index+1:]`: split at the first occurrence,
`none` when the character does not occur. -/
def splitAtFirst (c : Char) : List Char → Option (List Char × List Char)
  | [] => none
  | d :: rest =>
    if d = c then some ([], rest)
    else (splitAtFirst c rest).map fun p => (d :: p.1, p.2)

/-- Go `strings.Index(value, " #")` followed by `value[:i]`: the characters
before the first space-hash occurrence, `none` when it does not occur. -/
def cutComment : List Char → Option (List Char)
  | c1 :: c2 :: rest =>
    if c1.toNat = 32 ∧ c2 = '#' then some []
    else (cutComment (c2 :: rest)).map fun p => c1 :: p
  | _ => none

/-- The double-quote character. -/
def quoteChar : Char := Char.ofNat 34

/-- The backslash character. -/
def backslashChar : Char := Char.ofNat 92

/-- Body scanner for `unquote`: consumes characters up to the closing
quote, which must end the literal; handles the simple escapes. -/
def unquoteAux : List Char → Option (List Char)
  | [] => none
  | c :: rest =>
    if c = quoteChar then
      if rest = [] then some [] else none
    else if c = backslashChar then
      match rest with
      | 'n' :: rs => (unquoteAux rs).map fun l => Char.ofNat 10 :: l
      | 't' :: rs => (unquoteAux rs).map fun l => Char.ofNat 9 :: l
      | 'r' :: rs => (unquoteAux rs).map fun l => Char.ofNat 13 :: l
      | d :: rs =>
        if d = backslashChar ∨ d = quoteChar then
          (unquoteAux rs).map fun l => d :: l
        else none
      | [] => none
    else
      (unquoteAux rest).map fun l => c :: l

/-- Models `strconv.Unquote` on the fragment the reader's inputs use:
double-quoted literals with the simple escapes; every other input
(including backquoted and rune literals) reports an error (`none`),
upon which `EnvParser` keeps the value literal. -/
def unquote (l : List Char) : Option (List Char) :=
  match l with
  | c :: rest => if c = quoteChar then unquoteAux rest else none
  | [] => none

/-- The value post-processing of `EnvParser` (lines 160-166 of the
reader source): truncate at an inline ` #` comment (re-trimming),
then unquote if the remainder is a valid quoted literal. -/
def postprocessValue (value : List Char) : List Char :=
  let v1 := match cutComment value with
    | some before => goTrimSpace before
    | none => value
  match unquote v1 with
  | some u => u
  | none => v1

/-- What `EnvParser` does with one scanned line. -/
inductive LineResult where
  | skip
  | entry (name value : String)
  | lineError (msg : String)
deriving DecidableEq, Repr

/-- One iteration of the `EnvParser` scan loop (lines 132-170 of the
reader source): trim; skip empties and `#` comments; require a `=` and
split at the first one; trim both sides, erroring when either is empty;
post-process the value; emit. -/
def envParseLine (raw : String) : LineResult :=
  let line := goTrimSpace raw.data
  if line = [] then LineResult.skip
  else if line.head? = some '#' then LineResult.skip
  else
    match splitAtFirst '=' line with
    | none => LineResult.lineError ("invalid line: " ++ String.mk line)
    | some (n0, v0) =>
      let name := goTrimSpace n0
      let value := goTrimSpace v0
      if name = [] then LineResult.lineError ("invalid line: " ++ String.mk line)
      else if value = [] then LineResult.lineError ("invalid line: " ++ String.mk line)
      else LineResult.entry (String.mk name) (String.mk (postprocessValue value))

/-- Function `EnvParser(r, set)` with a collecting sink: the entries emitted in
order and the reader's own error, if it hit one (aborting the remaining
lines).  The `bufio.Scanner` line splitting is the input's list
structure. -/
def EnvParser : List String → List (String × String) × Option String
  | [] => ([], none)
  | raw :: rest =>
    match envParseLine raw with
    | LineResult.skip => EnvParser rest
    | LineResult.lineError m => ([], some m)
    | LineResult.entry n v =>
      let r := EnvParser rest
      ((n, v) :: r.1, r.2)

/-! ### Helper discriminators and the spec-side derivation rule -/

/-- Whether a `Parse` outcome is the internal invariant-violation panic
of line 62. -/
def isInternalPanic : Except ParseError FlagSet → Bool
  | Except.error (ParseError.internalPanic _) => true
  | _ => false

/-- Whether a line result is a format error. -/
def LineResult.isError : LineResult → Bool
  | LineResult.lineError _ => true
  | _ => false

/-- Modelled from the spec: the env-key derivation rule as §4.1 words
it — "for each flag name, uppercase it, replace `-`, `.`, `/` with
`_`; if `noPrefix` is set, use the result as-is; otherwise prepend
`UPPER(prefix) + \"_\"`" — with the claim's reading that an empty
prefix also leaves the key unprefixed. -/
def envKeySpecRule (np : Bool) (preStr : String) (name : String) : String :=
  let base := flagNameToEnvVar (goToUpper name)
  if np ∨ preStr = "" then base else goToUpper preStr ++ "_" ++ base

/-- Whether a `ParseError` is the internal invariant-violation panic. -/
def ParseError.isPanic : ParseError → Bool
  | ParseError.internalPanic _ => true
  | _ => false

/-! ### Concrete scenario data used by witnesses and counterexamples -/

/-- A validator that accepts every value (plain string-backed flags). -/
def alwaysOk : String → String → Bool := fun _ _ => true

/-- Scenario for the command-line-precedence witness: one flag `x`, set
on the command line, also present in the environment and config file. -/
def w1Fs : FlagSet := ⟨[⟨"x", ""⟩], []⟩

def w1Env : String → String := fun k => if k = "X" then ("envv") else ("")

def w1Reader : Reader := fun _ => ([("x", "cfgv")], none)

def w1Fsys : String → FileResult := fun _ => FileResult.ok ("")

def w1Ctx : Context := ⟨some ("cfg"), "", some w1Reader, false, "", true, "", false⟩

def w1Args : Option (List (String × String)) := some [("x", "cli")]

def w1T : ParseTrace :=
  ⟨⟨[⟨"x", "cli"⟩], ["x"]⟩, ["x"], ⟨[⟨"x", "cli"⟩], ["x"]⟩, [], ["x", "x"],
   ⟨[⟨"x", "cli"⟩], ["x"]⟩, [], ["x", "x", "x"]⟩

/-- Scenario for the monotonicity witness: flag `x` from the command
line, flag `y` from the environment, no config file. -/
def w9Fs : FlagSet := ⟨[⟨"x", ""⟩, ⟨"y", ""⟩], []⟩

def w9Env : String → String := fun k => if k = "Y" then ("e") else ("")

def w9Ctx : Context := ⟨none, "", none, false, "", true, "", false⟩

def w9Args : Option (List (String × String)) := some [("x", "cli")]

def w9T : ParseTrace :=
  ⟨⟨[⟨"x", "cli"⟩, ⟨"y", ""⟩], ["x"]⟩, ["x"],
   ⟨[⟨"x", "cli"⟩, ⟨"y", "e"⟩], ["x", "y"]⟩, [("y", "e")], ["x", "x", "y"],
   ⟨[⟨"x", "cli"⟩, ⟨"y", "e"⟩], ["x", "y"]⟩, [], ["x", "x", "y", "x", "y"]⟩

/-- Scenario refuting the claimed `a-b`/`a_b` ambiguity: both flags
registered (lexical `VisitAll` order), a config entry named `a_b`. -/
def cx2Fs : FlagSet := ⟨[⟨"a-b", ""⟩, ⟨"a_b", ""⟩], []⟩

def cx2Reader : Reader := fun _ => ([("a_b", "v")], none)

def cx2Fsys : String → FileResult :=
  fun p => if p = "cfg" then FileResult.ok ("a_b=v") else FileResult.notExist

def cx2Ctx : Context := ⟨some ("cfg"), "", some cx2Reader, false, "", false, "", false⟩

/-- Scenario where the dual lookup genuinely is ambiguous: flag `A_B`
matches the entry name directly while flag `a-b` owns the env key
`A_B` (the later `VisitAll` insertion wins the `env2flag` binding). -/
def am2Fs : FlagSet := ⟨[⟨"A_B", ""⟩, ⟨"a-b", ""⟩], []⟩

def am2Reader : Reader := fun _ => ([("A_B", "v")], none)

def am2Ctx : Context := ⟨some ("cfg"), "", some am2Reader, false, "", false, "", false⟩

/-- Scenario refuting "no empty token reaches Set": raw env value `,`
split on `,` yields two empty tokens. -/
def cx3Fs : FlagSet := ⟨[⟨"f", ""⟩], []⟩

def cx3Env : String → String := fun k => if k = "F" then (",") else ("")

/-- Scenario for the missing-config-file witness: a parser is
configured, the resolved path does not exist, tolerance enabled. -/
def c6Ctx : Context := ⟨some ("cfg"), "", some w1Reader, true, "", false, "", false⟩

/-! ### Basic lemmas about `FlagSet.set` -/

theorem Flg.update_name (f : Flg) (n v : String) :
    (if f.name == n then (⟨f.name, v⟩ : Flg) else f).name = f.name := by
  by_cases h : f.name == n <;> simp [h]

theorem find?_update_ne (l : List Flg) (n m v : String) (h : m ≠ n) :
    (l.map fun f => if f.name == n then (⟨f.name, v⟩ : Flg) else f).find?
      (fun f => f.name == m) = l.find? (fun f => f.name == m) := by
  induction l with
  | nil => rfl
  | cons f l ih =>
    simp only [List.map_cons, List.find?, Flg.update_name]
    by_cases hm : f.name = m
    · have hfn : (f.name == n) = false := by
        simp only [beq_eq_false_iff_ne, hm]
        exact h
      have h2 : (f.name == m) = true := by simp [hm]
      rw [h2]
      simp [hfn]
    · have h1 : (f.name == m) = false := by simp [hm]
      rw [h1]
      exact ih

theorem FlagSet.set_names {setOk : String → String → Bool} {fs fs1 : FlagSet}
    {n v : String} (h : fs.set setOk n v = Except.ok fs1) :
    fs1.flags.map Flg.name = fs.flags.map Flg.name := by
  unfold FlagSet.set at h
  cases hl : fs.lookup n with
  | none => rw [hl] at h; exact absurd h (by simp)
  | some g =>
    rw [hl] at h
    by_cases hok : setOk n v
    · simp only [hok, if_true] at h
      cases h
      simp only [List.map_map]
      exact List.map_congr_left fun f _ => Flg.update_name f n v
    · simp [hok] at h

theorem FlagSet.set_actual {setOk : String → String → Bool} {fs fs1 : FlagSet}
    {n v : String} (h : fs.set setOk n v = Except.ok fs1) :
    fs1.actual = fs.actual ++ [n] := by
  unfold FlagSet.set at h
  cases hl : fs.lookup n with
  | none => rw [hl] at h; exact absurd h (by simp)
  | some g =>
    rw [hl] at h
    by_cases hok : setOk n v
    · simp only [hok, if_true] at h; cases h; rfl
    · simp [hok] at h

theorem FlagSet.set_lookup_ne {setOk : String → String → Bool} {fs fs1 : FlagSet}
    {n v : String} (h : fs.set setOk n v = Except.ok fs1)
    (m : String) (hm : m ≠ n) : fs1.lookup m = fs.lookup m := by
  unfold FlagSet.set at h
  cases hl : fs.lookup n with
  | none => rw [hl] at h; exact absurd h (by simp)
  | some g =>
    rw [hl] at h
    by_cases hok : setOk n v
    · simp only [hok, if_true] at h
      cases h
      unfold FlagSet.lookup
      exact find?_update_ne fs.flags n m v hm
    · simp [hok] at h

/-! ### Invariants of the environment phase -/

theorem setEnvTokens_spec (setOk : String → String → Bool) (name key : String)
    (vs : List String) :
    ∀ (fs fs1 : FlagSet) (tr : List (String × String)),
      setEnvTokens setOk name key fs vs = Except.ok (fs1, tr) →
      fs1.flags.map Flg.name = fs.flags.map Flg.name ∧
      (∃ ns, fs1.actual = fs.actual ++ ns) ∧
      (∀ m, m ≠ name → fs1.lookup m = fs.lookup m) ∧
      (∀ p ∈ tr, p.1 = name ∧ p.1 ∈ fs1.actual) := by
  induction vs with
  | nil =>
    intro fs fs1 tr h
    simp only [setEnvTokens, Except.ok.injEq, Prod.mk.injEq] at h
    obtain ⟨h1, h2⟩ := h
    subst h1; subst h2
    exact ⟨rfl, ⟨[], by simp⟩, fun m _ => rfl, by simp⟩
  | cons v vs ih =>
    intro fs fs1 tr h
    cases hset : fs.set setOk name v with
    | error e => simp [setEnvTokens, hset] at h
    | ok fsx =>
      cases hrec : setEnvTokens setOk name key fsx vs with
      | error e => simp [setEnvTokens, hset, hrec] at h
      | ok q =>
        obtain ⟨fs2, tr2⟩ := q
        simp only [setEnvTokens, hset, hrec, Except.ok.injEq, Prod.mk.injEq] at h
        obtain ⟨h1, h2⟩ := h
        subst h1; subst h2
        obtain ⟨ihn, ⟨ns, iha⟩, ihl, iht⟩ := ih fsx fs2 tr2 hrec
        refine ⟨ihn.trans (FlagSet.set_names hset), ?_, ?_, ?_⟩
        · exact ⟨[name] ++ ns, by rw [iha, FlagSet.set_actual hset, List.append_assoc]⟩
        · intro m hm
          rw [ihl m hm, FlagSet.set_lookup_ne hset m hm]
        · intro p hp
          rcases List.mem_cons.mp hp with hp1 | hp2
          · subst hp1
            refine ⟨rfl, ?_⟩
            rw [iha, FlagSet.set_actual hset]
            simp
          · exact iht p hp2

theorem envVisit_spec (setOk : String → String → Bool) (env : String → String)
    (split : String) (flags0 : List Flg) (np : Bool) (preStr : String)
    (provided : List String) (fl : List Flg) :
    ∀ (fs fs1 : FlagSet) (tr : List (String × String)),
      envVisit setOk env split flags0 np preStr provided fs fl = Except.ok (fs1, tr) →
      fs1.flags.map Flg.name = fs.flags.map Flg.name ∧
      (∃ ns, fs1.actual = fs.actual ++ ns) ∧
      (∀ m ∈ provided, fs1.lookup m = fs.lookup m) ∧
      (∀ p ∈ tr, p.1 ∉ provided ∧ p.1 ∈ fs1.actual) := by
  induction fl with
  | nil =>
    intro fs fs1 tr h
    simp only [envVisit, Except.ok.injEq, Prod.mk.injEq] at h
    obtain ⟨h1, h2⟩ := h
    subst h1; subst h2
    exact ⟨rfl, ⟨[], by simp⟩, fun m _ => rfl, by simp⟩
  | cons f fl ih =>
    intro fs fs1 tr h
    by_cases hp : f.name ∈ provided
    · simp only [envVisit, if_pos hp] at h
      exact ih fs fs1 tr h
    · cases hl : flag2envLookup flags0 np preStr f.name with
      | none => simp [envVisit, if_neg hp, hl] at h
      | some key =>
        by_cases hv : env key = ""
        · simp only [envVisit, if_neg hp, hl, if_pos hv] at h
          exact ih fs fs1 tr h
        · cases hset : setEnvTokens setOk f.name key fs (maybeSplit (env key) split) with
          | error e => simp [envVisit, if_neg hp, hl, if_neg hv, hset] at h
          | ok q =>
            obtain ⟨fsx, trx⟩ := q
            cases hrec : envVisit setOk env split flags0 np preStr provided fsx fl with
            | error e => simp [envVisit, if_neg hp, hl, if_neg hv, hset, hrec] at h
            | ok q2 =>
              obtain ⟨fs2, tr2⟩ := q2
              simp only [envVisit, if_neg hp, hl, if_neg hv, hset, hrec,
                Except.ok.injEq, Prod.mk.injEq] at h
              obtain ⟨h1, h2⟩ := h
              subst h1; subst h2
              obtain ⟨sn, ⟨ns1, sa⟩, sl, st⟩ :=
                setEnvTokens_spec setOk f.name key (maybeSplit (env key) split) fs fsx trx hset
              obtain ⟨ihn, ⟨ns2, iha⟩, ihl, iht⟩ := ih fsx fs2 tr2 hrec
              refine ⟨ihn.trans sn, ?_, ?_, ?_⟩
              · exact ⟨ns1 ++ ns2, by rw [iha, sa, List.append_assoc]⟩
              · intro m hm
                have hmne : m ≠ f.name := fun hEq => hp (hEq ▸ hm)
                rw [ihl m hm, sl m hmne]
              · intro p hpm
                rcases List.mem_append.mp hpm with hp1 | hp2
                · obtain ⟨pe, pm⟩ := st p hp1
                  refine ⟨fun hc => hp (pe ▸ hc), ?_⟩
                  rw [iha]
                  exact List.mem_append_left ns2 pm
                · exact iht p hp2

theorem applyArgs_names (setOk : String → String → Bool)
    (l : List (String × String)) :
    ∀ (fs fs1 : FlagSet), applyArgs setOk fs l = Except.ok fs1 →
      fs1.flags.map Flg.name = fs.flags.map Flg.name := by
  induction l with
  | nil =>
    intro fs fs1 h
    simp only [applyArgs, Except.ok.injEq] at h
    subst h; rfl
  | cons a l ih =>
    intro fs fs1 h
    obtain ⟨n, v⟩ := a
    cases hset : fs.set setOk n v with
    | error e => simp [applyArgs, hset] at h
    | ok fsx =>
      simp only [applyArgs, hset] at h
      exact (ih fsx fs1 h).trans (FlagSet.set_names hset)

theorem cmdlinePhase_names {setOk : String → String → Bool} {fs fs1 : FlagSet}
    {args : Option (List (String × String))}
    (h : cmdlinePhase setOk fs args = Except.ok fs1) :
    fs1.flags.map Flg.name = fs.flags.map Flg.name := by
  cases args with
  | none => simp [cmdlinePhase] at h
  | some l => exact applyArgs_names setOk l fs fs1 h

/-! ### Invariants of the config-file phase -/

theorem useFlag_spec {setOk : String → String → Bool} {provided : List String}
    {fs fs1 : FlagSet} {name fname value : String} {tr : List (String × String)}
    (h : useFlag setOk provided fs name fname value = Except.ok (fs1, tr)) :
    fs1.flags.map Flg.name = fs.flags.map Flg.name ∧
    (∃ ns, fs1.actual = fs.actual ++ ns) ∧
    (∀ m ∈ provided, fs1.lookup m = fs.lookup m) ∧
    (∀ p ∈ tr, p.1 ∉ provided ∧ p.1 ∈ fs1.actual) := by
  by_cases hp : fname ∈ provided
  · simp only [useFlag, if_pos hp, Except.ok.injEq, Prod.mk.injEq] at h
    obtain ⟨h1, h2⟩ := h
    subst h1; subst h2
    exact ⟨rfl, ⟨[], by simp⟩, fun m _ => rfl, by simp⟩
  · cases hset : fs.set setOk fname value with
    | error e => simp [useFlag, if_neg hp, hset] at h
    | ok fsx =>
      simp only [useFlag, if_neg hp, hset, Except.ok.injEq, Prod.mk.injEq] at h
      obtain ⟨h1, h2⟩ := h
      subst h1; subst h2
      refine ⟨FlagSet.set_names hset, ⟨[fname], FlagSet.set_actual hset⟩, ?_, ?_⟩
      · intro m hm
        exact FlagSet.set_lookup_ne hset m (fun hEq => hp (hEq ▸ hm))
      · intro p hpm
        rcases List.mem_singleton.mp hpm with rfl
        refine ⟨hp, ?_⟩
        rw [FlagSet.set_actual hset]
        simp

theorem configStep_spec {setOk : String → String → Bool} {ignoreU : Bool}
    {flags0 : List Flg} {np : Bool} {preStr : String} {provided : List String}
    {fs fs1 : FlagSet} {name value : String} {tr : List (String × String)}
    (h : configStep setOk ignoreU flags0 np preStr provided fs name value =
      Except.ok (fs1, tr)) :
    fs1.flags.map Flg.name = fs.flags.map Flg.name ∧
    (∃ ns, fs1.actual = fs.actual ++ ns) ∧
    (∀ m ∈ provided, fs1.lookup m = fs.lookup m) ∧
    (∀ p ∈ tr, p.1 ∉ provided ∧ p.1 ∈ fs1.actual) := by
  by_cases hp : name ∈ provided
  · simp only [configStep, if_pos hp, Except.ok.injEq, Prod.mk.injEq] at h
    obtain ⟨h1, h2⟩ := h
    subst h1; subst h2
    exact ⟨rfl, ⟨[], by simp⟩, fun m _ => rfl, by simp⟩
  · cases h1 : fs.lookup name with
    | none =>
      cases h2 : env2flagLookup flags0 np preStr name with
      | none =>
        by_cases hig : ignoreU
        · simp only [configStep, if_neg hp, h1, h2, if_pos hig,
            Except.ok.injEq, Prod.mk.injEq] at h
          obtain ⟨ha, hb⟩ := h
          subst ha; subst hb
          exact ⟨rfl, ⟨[], by simp⟩, fun m _ => rfl, by simp⟩
        · simp [configStep, if_neg hp, h1, h2, if_neg hig] at h
      | some n2 =>
        simp only [configStep, if_neg hp, h1, h2] at h
        exact useFlag_spec h
    | some g =>
      cases h2 : env2flagLookup flags0 np preStr name with
      | none =>
        simp only [configStep, if_neg hp, h1, h2] at h
        exact useFlag_spec h
      | some n2 =>
        by_cases hg : g.name = n2
        · simp only [configStep, if_neg hp, h1, h2, if_pos hg] at h
          exact useFlag_spec h
        · simp [configStep, if_neg hp, h1, h2, if_neg hg] at h

theorem configEntries_spec (setOk : String → String → Bool) (ignoreU : Bool)
    (flags0 : List Flg) (np : Bool) (preStr : String) (provided : List String)
    (entries : List (String × String)) :
    ∀ (fs fs1 : FlagSet) (tr : List (String × String)),
      configEntries setOk ignoreU flags0 np preStr provided fs entries =
        Except.ok (fs1, tr) →
      fs1.flags.map Flg.name = fs.flags.map Flg.name ∧
      (∃ ns, fs1.actual = fs.actual ++ ns) ∧
      (∀ m ∈ provided, fs1.lookup m = fs.lookup m) ∧
      (∀ p ∈ tr, p.1 ∉ provided ∧ p.1 ∈ fs1.actual) := by
  induction entries with
  | nil =>
    intro fs fs1 tr h
    simp only [configEntries, Except.ok.injEq, Prod.mk.injEq] at h
    obtain ⟨h1, h2⟩ := h
    subst h1; subst h2
    exact ⟨rfl, ⟨[], by simp⟩, fun m _ => rfl, by simp⟩
  | cons a entries ih =>
    intro fs fs1 tr h
    obtain ⟨n, v⟩ := a
    cases hstep : configStep setOk ignoreU flags0 np preStr provided fs n v with
    | error e => simp [configEntries, hstep] at h
    | ok q =>
      obtain ⟨fsx, trx⟩ := q
      cases hrec : configEntries setOk ignoreU flags0 np preStr provided fsx entries with
      | error e => simp [configEntries, hstep, hrec] at h
      | ok q2 =>
        obtain ⟨fs2, tr2⟩ := q2
        simp only [configEntries, hstep, hrec, Except.ok.injEq, Prod.mk.injEq] at h
        obtain ⟨ha, hb⟩ := h
        subst ha; subst hb
        obtain ⟨sn, ⟨ns1, sa⟩, sl, st⟩ := configStep_spec hstep
        obtain ⟨ihn, ⟨ns2, iha⟩, ihl, iht⟩ := ih fsx fs2 tr2 hrec
        refine ⟨ihn.trans sn, ⟨ns1 ++ ns2, by rw [iha, sa, List.append_assoc]⟩, ?_, ?_⟩
        · intro m hm
          rw [ihl m hm, sl m hm]
        · intro p hpm
          rcases List.mem_append.mp hpm with hp1 | hp2
          · obtain ⟨pe, pm⟩ := st p hp1
            refine ⟨pe, ?_⟩
            rw [iha]
            exact List.mem_append_left ns2 pm
          · exact iht p hp2

theorem configPhase_spec {setOk : String → String → Bool}
    {fsys : String → FileResult} {flags0 : List Flg} {ctx : Context}
    {provided : List String} {fs fs1 : FlagSet} {tr : List (String × String)}
    (h : configPhase setOk fsys flags0 ctx provided fs = Except.ok (fs1, tr)) :
    fs1.flags.map Flg.name = fs.flags.map Flg.name ∧
    (∃ ns, fs1.actual = fs.actual ++ ns) ∧
    (∀ m ∈ provided, fs1.lookup m = fs.lookup m) ∧
    (∀ p ∈ tr, p.1 ∉ provided ∧ p.1 ∈ fs1.actual) := by
  have triv : fs.flags.map Flg.name = fs.flags.map Flg.name ∧
      (∃ ns, fs.actual = fs.actual ++ ns) ∧
      (∀ m ∈ provided, fs.lookup m = fs.lookup m) ∧
      (∀ p ∈ ([] : List (String × String)), p.1 ∉ provided ∧ p.1 ∈ fs.actual) :=
    ⟨rfl, ⟨[], by simp⟩, fun m _ => rfl, by simp⟩
  unfold configPhase at h
  cases hpar : ctx.configFileParserFn with
  | none =>
    rw [hpar] at h
    simp only [Except.ok.injEq, Prod.mk.injEq] at h
    obtain ⟨h1, h2⟩ := h
    subst h1; subst h2
    exact triv
  | some reader =>
    simp only [hpar] at h
    by_cases hcf : resolveConfigFile ctx.configFileVia ctx.configFileFlagName fs = ""
    · rw [if_pos hcf] at h
      simp only [Except.ok.injEq, Prod.mk.injEq] at h
      obtain ⟨h1, h2⟩ := h
      subst h1; subst h2
      exact triv
    · rw [if_neg hcf] at h
      cases hfile : fsys (resolveConfigFile ctx.configFileVia ctx.configFileFlagName fs) with
      | ok content =>
        simp only [hfile] at h
        cases hent : configEntries setOk ctx.ignoreUndefined flags0 ctx.envVarNoPrefixB
            ctx.envVarPrefixStr provided fs (reader content).1 with
        | error e => simp [hent] at h
        | ok q =>
          obtain ⟨fsx, trx⟩ := q
          simp only [hent] at h
          cases hre : (reader content).2 with
          | some m => simp [hre] at h
          | none =>
            simp only [hre, Except.ok.injEq, Prod.mk.injEq] at h
            obtain ⟨h1, h2⟩ := h
            subst h1; subst h2
            exact configEntries_spec setOk ctx.ignoreUndefined flags0 ctx.envVarNoPrefixB
              ctx.envVarPrefixStr provided (reader content).1 fs fsx trx hent
      | notExist =>
        simp only [hfile] at h
        by_cases hmiss : ctx.allowMissingConfigFile
        · simp only [hmiss, if_true, Except.ok.injEq, Prod.mk.injEq] at h
          obtain ⟨h1, h2⟩ := h
          subst h1; subst h2
          exact triv
        · simp [hmiss] at h
      | otherError m =>
        simp only [hfile] at h
        exact absurd h (by simp)

theorem envPhaseIfEnabled_spec {setOk : String → String → Bool}
    {env : String → String} {ctx : Context} {flags0 : List Flg}
    {provided : List String} {fs fs1 : FlagSet} {tr : List (String × String)}
    (h : envPhaseIfEnabled setOk env ctx flags0 provided fs = Except.ok (fs1, tr)) :
    fs1.flags.map Flg.name = fs.flags.map Flg.name ∧
    (∃ ns, fs1.actual = fs.actual ++ ns) ∧
    (∀ m ∈ provided, fs1.lookup m = fs.lookup m) ∧
    (∀ p ∈ tr, p.1 ∉ provided ∧ p.1 ∈ fs1.actual) := by
  unfold envPhaseIfEnabled at h
  by_cases he : ctx.envVarPrefixStr ≠ "" ∨ ctx.envVarNoPrefixB
  · rw [if_pos he] at h
    exact envVisit_spec setOk env ctx.envVarSplit flags0 ctx.envVarNoPrefixB
      ctx.envVarPrefixStr provided fs.flags fs fs1 tr h
  · rw [if_neg he] at h
    simp only [Except.ok.injEq, Prod.mk.injEq] at h
    obtain ⟨h1, h2⟩ := h
    subst h1; subst h2
    exact ⟨rfl, ⟨[], by simp⟩, fun m _ => rfl, by simp⟩

/-! ### Inversion of a successful `ParseDetail` run -/

theorem ParseDetail_ok {setOk : String → String → Bool} {env : String → String}
    {fsys : String → FileResult} {ctx : Context} {fs : FlagSet}
    {args : Option (List (String × String))} {t : ParseTrace}
    (h : ParseDetail setOk env fsys ctx fs args = Except.ok t) :
    cmdlinePhase setOk fs args = Except.ok t.fsA ∧
    t.providedA = t.fsA.actual ∧
    envPhaseIfEnabled setOk env ctx fs.flags t.fsA.actual t.fsA =
      Except.ok (t.fsB, t.envTr) ∧
    t.providedB = t.fsA.actual ++ t.fsB.actual ∧
    configPhase setOk fsys fs.flags ctx (t.fsA.actual ++ t.fsB.actual) t.fsB =
      Except.ok (t.fsC, t.cfgTr) ∧
    t.providedC = (t.fsA.actual ++ t.fsB.actual) ++ t.fsC.actual := by
  unfold ParseDetail at h
  cases hA : cmdlinePhase setOk fs args with
  | error e => simp [hA] at h
  | ok fsA =>
    simp only [hA] at h
    cases hB : envPhaseIfEnabled setOk env ctx fs.flags fsA.actual fsA with
    | error e => simp [hB] at h
    | ok qB =>
      obtain ⟨fsB, envTr⟩ := qB
      simp only [hB] at h
      cases hC : configPhase setOk fsys fs.flags ctx (fsA.actual ++ fsB.actual) fsB with
      | error e => simp [hC] at h
      | ok qC =>
        obtain ⟨fsC, cfgTr⟩ := qC
        simp only [hC, Except.ok.injEq] at h
        subst h
        exact ⟨rfl, rfl, hB, rfl, hC, rfl⟩

/-! ### Shapes of the errors each phase can produce -/

theorem applyArgs_error (setOk : String → String → Bool)
    (l : List (String × String)) :
    ∀ (fs : FlagSet) (e : ParseError), applyArgs setOk fs l = Except.error e →
      ∃ n, e = ParseError.commandlineParse n := by
  induction l with
  | nil => intro fs e h; simp [applyArgs] at h
  | cons a l ih =>
    intro fs e h
    obtain ⟨n, v⟩ := a
    cases hset : fs.set setOk n v with
    | error e2 =>
      simp only [applyArgs, hset, Except.error.injEq] at h
      exact ⟨n, h.symm⟩
    | ok fsx =>
      simp only [applyArgs, hset] at h
      exact ih fsx e h

theorem setEnvTokens_error (setOk : String → String → Bool) (name key : String)
    (vs : List String) :
    ∀ (fs : FlagSet) (e : ParseError),
      setEnvTokens setOk name key fs vs = Except.error e →
      e = ParseError.envSet name key := by
  induction vs with
  | nil => intro fs e h; simp [setEnvTokens] at h
  | cons v vs ih =>
    intro fs e h
    cases hset : fs.set setOk name v with
    | error e2 =>
      simp only [setEnvTokens, hset, Except.error.injEq] at h
      exact h.symm
    | ok fsx =>
      cases hrec : setEnvTokens setOk name key fsx vs with
      | error e2 =>
        simp only [setEnvTokens, hset, hrec, Except.error.injEq] at h
        subst h
        exact ih fsx e2 hrec
      | ok q =>
        obtain ⟨fs2, tr2⟩ := q
        simp [setEnvTokens, hset, hrec] at h

theorem flag2envLookup_mem (np : Bool) (preStr : String) (flags0 : List Flg) :
    ∀ (name : String), name ∈ flags0.map Flg.name →
      ∃ k, flag2envLookup flags0 np preStr name = some k := by
  induction flags0 with
  | nil => intro name h; simp at h
  | cons f l ih =>
    intro name h
    unfold flag2envLookup
    simp only [List.map_cons, List.find?]
    by_cases hf : f.name = name
    · simp [hf]
    · have h1 : (f.name == name) = false := by simp [hf]
      rw [h1]
      have h2 : name ∈ l.map Flg.name := by
        simp only [List.map_cons, List.mem_cons] at h
        rcases h with h | h
        · exact absurd h.symm hf
        · exact h
      exact ih name h2

theorem envVisit_error_noPanic (setOk : String → String → Bool)
    (env : String → String) (split : String) (flags0 : List Flg) (np : Bool)
    (preStr : String) (provided : List String) (fl : List Flg)
    (hall : ∀ f ∈ fl, ∃ k, flag2envLookup flags0 np preStr f.name = some k) :
    ∀ (fs : FlagSet) (e : ParseError),
      envVisit setOk env split flags0 np preStr provided fs fl = Except.error e →
      e.isPanic = false := by
  induction fl with
  | nil => intro fs e h; simp [envVisit] at h
  | cons f fl ih =>
    intro fs e h
    have hallTail : ∀ g ∈ fl, ∃ k, flag2envLookup flags0 np preStr g.name = some k :=
      fun g hg => hall g (List.mem_cons_of_mem f hg)
    by_cases hp : f.name ∈ provided
    · simp only [envVisit, if_pos hp] at h
      exact ih hallTail fs e h
    · obtain ⟨key, hl⟩ := hall f (List.mem_cons_self f fl)
      by_cases hv : env key = ""
      · simp only [envVisit, if_neg hp, hl, if_pos hv] at h
        exact ih hallTail fs e h
      · cases hset : setEnvTokens setOk f.name key fs (maybeSplit (env key) split) with
        | error e2 =>
          simp only [envVisit, if_neg hp, hl, if_neg hv, hset, Except.error.injEq] at h
          subst h
          rw [setEnvTokens_error setOk f.name key _ fs e2 hset]
          rfl
        | ok q =>
          obtain ⟨fsx, trx⟩ := q
          cases hrec : envVisit setOk env split flags0 np preStr provided fsx fl with
          | error e2 =>
            simp only [envVisit, if_neg hp, hl, if_neg hv, hset, hrec,
              Except.error.injEq] at h
            subst h
            exact ih hallTail fsx e2 hrec
          | ok q2 =>
            obtain ⟨fs2, tr2⟩ := q2
            simp [envVisit, if_neg hp, hl, if_neg hv, hset, hrec] at h

theorem useFlag_error {setOk : String → String → Bool} {provided : List String}
    {fs : FlagSet} {name fname value : String} {e : ParseError}
    (h : useFlag setOk provided fs name fname value = Except.error e) :
    e = ParseError.configSet name := by
  by_cases hp : fname ∈ provided
  · simp [useFlag, if_pos hp] at h
  · cases hset : fs.set setOk fname value with
    | error e2 =>
      simp only [useFlag, if_neg hp, hset, Except.error.injEq] at h
      exact h.symm
    | ok fsx => simp [useFlag, if_neg hp, hset] at h

theorem configStep_noPanic {setOk : String → String → Bool} {ignoreU : Bool}
    {flags0 : List Flg} {np : Bool} {preStr : String} {provided : List String}
    {fs : FlagSet} {name value : String} {e : ParseError}
    (h : configStep setOk ignoreU flags0 np preStr provided fs name value =
      Except.error e) : e.isPanic = false := by
  by_cases hp : name ∈ provided
  · simp [configStep, if_pos hp] at h
  · cases h1 : fs.lookup name with
    | none =>
      cases h2 : env2flagLookup flags0 np preStr name with
      | none =>
        by_cases hig : ignoreU
        · simp [configStep, if_neg hp, h1, h2, if_pos hig] at h
        · simp only [configStep, if_neg hp, h1, h2, if_neg hig,
            Except.error.injEq] at h
          subst h
          rfl
      | some n2 =>
        simp only [configStep, if_neg hp, h1, h2] at h
        rw [useFlag_error h]
        rfl
    | some g =>
      cases h2 : env2flagLookup flags0 np preStr name with
      | none =>
        simp only [configStep, if_neg hp, h1, h2] at h
        rw [useFlag_error h]
        rfl
      | some n2 =>
        by_cases hg : g.name = n2
        · simp only [configStep, if_neg hp, h1, h2, if_pos hg] at h
          rw [useFlag_error h]
          rfl
        · simp only [configStep, if_neg hp, h1, h2, if_neg hg,
            Except.error.injEq] at h
          subst h
          rfl

theorem configEntries_noPanic (setOk : String → String → Bool) (ignoreU : Bool)
    (flags0 : List Flg) (np : Bool) (preStr : String) (provided : List String)
    (entries : List (String × String)) :
    ∀ (fs : FlagSet) (e : ParseError),
      configEntries setOk ignoreU flags0 np preStr provided fs entries =
        Except.error e → e.isPanic = false := by
  induction entries with
  | nil => intro fs e h; simp [configEntries] at h
  | cons a entries ih =>
    intro fs e h
    obtain ⟨n, v⟩ := a
    cases hstep : configStep setOk ignoreU flags0 np preStr provided fs n v with
    | error e2 =>
      simp only [configEntries, hstep, Except.error.injEq] at h
      subst h
      exact configStep_noPanic hstep
    | ok q =>
      obtain ⟨fsx, trx⟩ := q
      cases hrec : configEntries setOk ignoreU flags0 np preStr provided fsx entries with
      | error e2 =>
        simp only [configEntries, hstep, hrec, Except.error.injEq] at h
        subst h
        exact ih fsx e2 hrec
      | ok q2 =>
        obtain ⟨fs2, tr2⟩ := q2
        simp [configEntries, hstep, hrec] at h

theorem configPhase_noPanic {setOk : String → String → Bool}
    {fsys : String → FileResult} {flags0 : List Flg} {ctx : Context}
    {provided : List String} {fs : FlagSet} {e : ParseError}
    (h : configPhase setOk fsys flags0 ctx provided fs = Except.error e) :
    e.isPanic = false := by
  unfold configPhase at h
  cases hpar : ctx.configFileParserFn with
  | none => rw [hpar] at h; exact absurd h (by simp)
  | some reader =>
    simp only [hpar] at h
    by_cases hcf : resolveConfigFile ctx.configFileVia ctx.configFileFlagName fs = ""
    · rw [if_pos hcf] at h
      exact absurd h (by simp)
    · rw [if_neg hcf] at h
      cases hfile : fsys (resolveConfigFile ctx.configFileVia ctx.configFileFlagName fs) with
      | ok content =>
        simp only [hfile] at h
        cases hent : configEntries setOk ctx.ignoreUndefined flags0 ctx.envVarNoPrefixB
            ctx.envVarPrefixStr provided fs (reader content).1 with
        | error e2 =>
          simp only [hent, Except.error.injEq] at h
          subst h
          exact configEntries_noPanic setOk ctx.ignoreUndefined flags0 ctx.envVarNoPrefixB
            ctx.envVarPrefixStr provided (reader content).1 fs e2 hent
        | ok q =>
          obtain ⟨fsx, trx⟩ := q
          simp only [hent] at h
          cases hre : (reader content).2 with
          | some m =>
            simp only [hre, Except.error.injEq] at h
            subst h
            rfl
          | none => simp [hre] at h
      | notExist =>
        simp only [hfile] at h
        by_cases hmiss : ctx.allowMissingConfigFile
        · simp [hmiss] at h
        · rw [if_neg hmiss] at h
          simp only [Except.error.injEq] at h
          subst h
          rfl
      | otherError m =>
        simp only [hfile, Except.error.injEq] at h
        subst h
        rfl

theorem cmdlinePhase_noPanic {setOk : String → String → Bool} {fs : FlagSet}
    {args : Option (List (String × String))} {e : ParseError}
    (h : cmdlinePhase setOk fs args = Except.error e) : e.isPanic = false := by
  cases args with
  | none =>
    simp only [cmdlinePhase, Except.error.injEq] at h
    subst h
    rfl
  | some l =>
    obtain ⟨n, hn⟩ := applyArgs_error setOk l fs e h
    subst hn
    rfl

theorem envPhaseIfEnabled_noPanic {setOk : String → String → Bool}
    {env : String → String} {ctx : Context} {flags0 : List Flg}
    {provided : List String} {fs : FlagSet} {e : ParseError}
    (hall : ∀ f ∈ fs.flags,
      ∃ k, flag2envLookup flags0 ctx.envVarNoPrefixB ctx.envVarPrefixStr f.name = some k)
    (h : envPhaseIfEnabled setOk env ctx flags0 provided fs = Except.error e) :
    e.isPanic = false := by
  unfold envPhaseIfEnabled at h
  by_cases he : ctx.envVarPrefixStr ≠ "" ∨ ctx.envVarNoPrefixB
  · rw [if_pos he] at h
    exact envVisit_error_noPanic setOk env ctx.envVarSplit flags0 ctx.envVarNoPrefixB
      ctx.envVarPrefixStr provided fs.flags hall fs e h
  · rw [if_neg he] at h
    exact absurd h (by simp)

theorem ParseDetail_noPanic {setOk : String → String → Bool}
    {env : String → String} {fsys : String → FileResult} {ctx : Context}
    {fs : FlagSet} {args : Option (List (String × String))} {e : ParseError}
    (h : ParseDetail setOk env fsys ctx fs args = Except.error e) :
    e.isPanic = false := by
  unfold ParseDetail at h
  cases hA : cmdlinePhase setOk fs args with
  | error e2 =>
    simp only [hA, Except.error.injEq] at h
    subst h
    exact cmdlinePhase_noPanic hA
  | ok fsA =>
    simp only [hA] at h
    have hall : ∀ f ∈ fsA.flags,
        ∃ k, flag2envLookup fs.flags ctx.envVarNoPrefixB ctx.envVarPrefixStr f.name
          = some k := by
      intro f hf
      apply flag2envLookup_mem
      rw [← cmdlinePhase_names hA]
      exact List.mem_map_of_mem Flg.name hf
    cases hB : envPhaseIfEnabled setOk env ctx fs.flags fsA.actual fsA with
    | error e2 =>
      simp only [hB, Except.error.injEq] at h
      subst h
      exact envPhaseIfEnabled_noPanic hall hB
    | ok qB =>
      obtain ⟨fsB, envTr⟩ := qB
      simp only [hB] at h
      cases hC : configPhase setOk fsys fs.flags ctx (fsA.actual ++ fsB.actual) fsB with
      | error e2 =>
        simp only [hC, Except.error.injEq] at h
        subst h
        exact configPhase_noPanic hC
      | ok qC =>
        obtain ⟨fsC, cfgTr⟩ := qC
        simp [hC] at h

/-! ### Values passed to `Set` by the environment phase -/

theorem isEmpty_false_of_ne {s : String} (h : s ≠ "") : s.isEmpty = false := by
  cases hq : s.isEmpty
  · rfl
  · exact absurd ((String.isEmpty_iff s).mp hq) h

theorem setEnvTokens_values (setOk : String → String → Bool) (name key : String)
    (vs : List String) :
    ∀ (fs fs1 : FlagSet) (tr : List (String × String)),
      setEnvTokens setOk name key fs vs = Except.ok (fs1, tr) →
      ∀ p ∈ tr, p.2 ∈ vs := by
  induction vs with
  | nil =>
    intro fs fs1 tr h
    simp only [setEnvTokens, Except.ok.injEq, Prod.mk.injEq] at h
    obtain ⟨h1, h2⟩ := h
    subst h2
    simp
  | cons v vs ih =>
    intro fs fs1 tr h
    cases hset : fs.set setOk name v with
    | error e => simp [setEnvTokens, hset] at h
    | ok fsx =>
      cases hrec : setEnvTokens setOk name key fsx vs with
      | error e => simp [setEnvTokens, hset, hrec] at h
      | ok q =>
        obtain ⟨fs2, tr2⟩ := q
        simp only [setEnvTokens, hset, hrec, Except.ok.injEq, Prod.mk.injEq] at h
        obtain ⟨h1, h2⟩ := h
        subst h2
        intro p hp
        rcases List.mem_cons.mp hp with hp1 | hp2
        · subst hp1
          simp
        · exact List.mem_cons_of_mem v (ih fsx fs2 tr2 hrec p hp2)

theorem envVisit_nosplit_values (setOk : String → String → Bool)
    (env : String → String) (flags0 : List Flg) (np : Bool) (preStr : String)
    (provided : List String) (fl : List Flg) :
    ∀ (fs fs1 : FlagSet) (tr : List (String × String)),
      envVisit setOk env ("") flags0 np preStr provided fs fl = Except.ok (fs1, tr) →
      ∀ p ∈ tr, p.2.isEmpty = false := by
  induction fl with
  | nil =>
    intro fs fs1 tr h
    simp only [envVisit, Except.ok.injEq, Prod.mk.injEq] at h
    obtain ⟨h1, h2⟩ := h
    subst h2
    simp
  | cons f fl ih =>
    intro fs fs1 tr h
    by_cases hp : f.name ∈ provided
    · simp only [envVisit, if_pos hp] at h
      exact ih fs fs1 tr h
    · cases hl : flag2envLookup flags0 np preStr f.name with
      | none => simp [envVisit, if_neg hp, hl] at h
      | some key =>
        by_cases hv : env key = ""
        · simp only [envVisit, if_neg hp, hl, if_pos hv] at h
          exact ih fs fs1 tr h
        · cases hset : setEnvTokens setOk f.name key fs (maybeSplit (env key) "") with
          | error e => simp [envVisit, if_neg hp, hl, if_neg hv, hset] at h
          | ok q =>
            obtain ⟨fsx, trx⟩ := q
            cases hrec : envVisit setOk env ("") flags0 np preStr provided fsx fl with
            | error e => simp [envVisit, if_neg hp, hl, if_neg hv, hset, hrec] at h
            | ok q2 =>
              obtain ⟨fs2, tr2⟩ := q2
              simp only [envVisit, if_neg hp, hl, if_neg hv, hset, hrec,
                Except.ok.injEq, Prod.mk.injEq] at h
              obtain ⟨h1, h2⟩ := h
              subst h2
              intro p hpm
              rcases List.mem_append.mp hpm with hp1 | hp2
              · have hval : p.2 ∈ maybeSplit (env key) "" :=
                  setEnvTokens_values setOk f.name key _ fs fsx trx hset p hp1
                have hone : maybeSplit (env key) "" = [env key] := by
                  simp [maybeSplit]
                rw [hone] at hval
                have : p.2 = env key := List.mem_singleton.mp hval
                rw [this]
                exact isEmpty_false_of_ne hv
              · exact ih fsx fs2 tr2 hrec p hp2

theorem isInternalPanic_error (e : ParseError) :
    isInternalPanic (Except.error e) = e.isPanic := by
  cases e <;> rfl

/-! ### The claims -/

/-- C1: for every flag explicitly set by the command-line arguments in
phase A, neither the environment phase nor the config-file phase
reassigns it (no `Set` call of theirs targets it), so its final value
after a successful `Parse` equals its command-line value; analogously,
a flag set from an environment variable in phase B is never reassigned
by the config-file phase. -/
theorem C1_precedence (setOk : String → String → Bool) (env : String → String)
    (fsys : String → FileResult) (ctx : Context) (fs : FlagSet)
    (args : Option (List (String × String))) (t : ParseTrace)
    (h : ParseDetail setOk env fsys ctx fs args = Except.ok t) :
    (∀ n ∈ t.providedA,
      (∀ p ∈ t.envTr, p.1 ≠ n) ∧ (∀ p ∈ t.cfgTr, p.1 ≠ n) ∧
      t.fsC.lookup n = t.fsA.lookup n) ∧
    (∀ p ∈ t.envTr, (∀ q ∈ t.cfgTr, q.1 ≠ p.1) ∧
      t.fsC.lookup p.1 = t.fsB.lookup p.1) := by
  obtain ⟨hA, hPA, hB, hPB, hC, hPC⟩ := ParseDetail_ok h
  obtain ⟨-, -, envLook, envTrP⟩ := envPhaseIfEnabled_spec hB
  obtain ⟨-, -, cfgLook, cfgTrP⟩ := configPhase_spec hC
  constructor
  · intro n hn
    rw [hPA] at hn
    have hnB : n ∈ t.fsA.actual ++ t.fsB.actual := List.mem_append_left _ hn
    refine ⟨?_, ?_, ?_⟩
    · intro p hp hEq
      exact (envTrP p hp).1 (by rw [hEq]; exact hn)
    · intro q hq hEq
      exact (cfgTrP q hq).1 (by rw [hEq]; exact hnB)
    · rw [cfgLook n hnB, envLook n hn]
  · intro p hp
    have hmem : p.1 ∈ t.fsA.actual ++ t.fsB.actual :=
      List.mem_append_right _ (envTrP p hp).2
    exact ⟨fun q hq hEq => (cfgTrP q hq).1 (by rw [hEq]; exact hmem),
      cfgLook p.1 hmem⟩

/-- Witness for C1 at a concrete run: flag `x` is set to `cli` on the
command line while the environment and the config file also carry
values for it; its final value equals its phase-A value. -/
theorem C1_precedence_witness :
    w1T.fsC.lookup ("x") = w1T.fsA.lookup ("x") :=
  ((C1_precedence alwaysOk w1Env w1Fsys w1Ctx w1Fs w1Args w1T rfl).1 ("x")
    (by decide)).2.2

/-- C9: the provided set only grows across the three phases (no name is
ever removed), and no phase performs a `Set` call on a flag whose name
is in the provided set at that phase's start. -/
theorem C9_monotonic (setOk : String → String → Bool) (env : String → String)
    (fsys : String → FileResult) (ctx : Context) (fs : FlagSet)
    (args : Option (List (String × String))) (t : ParseTrace)
    (h : ParseDetail setOk env fsys ctx fs args = Except.ok t) :
    (∀ n ∈ t.providedA, n ∈ t.providedB) ∧
    (∀ n ∈ t.providedB, n ∈ t.providedC) ∧
    (∀ p ∈ t.envTr, p.1 ∉ t.providedA) ∧
    (∀ p ∈ t.cfgTr, p.1 ∉ t.providedB) := by
  obtain ⟨hA, hPA, hB, hPB, hC, hPC⟩ := ParseDetail_ok h
  obtain ⟨-, -, -, envTrP⟩ := envPhaseIfEnabled_spec hB
  obtain ⟨-, -, -, cfgTrP⟩ := configPhase_spec hC
  refine ⟨?_, ?_, ?_, ?_⟩
  · intro n hn
    rw [hPA] at hn
    rw [hPB]
    exact List.mem_append_left _ hn
  · intro n hn
    rw [hPB] at hn
    rw [hPC]
    exact List.mem_append_left _ hn
  · intro p hp
    rw [hPA]
    exact (envTrP p hp).1
  · intro p hp
    rw [hPB]
    exact (cfgTrP p hp).1

/-- Witness for C9 at a concrete run in which the environment phase
sets flag `y` on top of command-line flag `x`. -/
theorem C9_monotonic_witness : "x" ∈ w9T.providedB :=
  (C9_monotonic alwaysOk w9Env (fun _ => FileResult.notExist) w9Ctx w9Fs w9Args
    w9T rfl).1 ("x") (by decide)

/-- C10: the internal panic for a flag missing from its own derived
flag-to-env-key mapping is unreachable: for every flag set, option
combination, environment, file system and argument assignment, `Parse`
never returns it, because the mapping and the environment phase
enumerate the same flag set and `Parse` never removes entries. -/
theorem C10_no_panic (setOk : String → String → Bool) (env : String → String)
    (fsys : String → FileResult) (ctx : Context) (fs : FlagSet)
    (args : Option (List (String × String))) :
    isInternalPanic (Parse setOk env fsys ctx fs args) = false := by
  unfold Parse
  cases hd : ParseDetail setOk env fsys ctx fs args with
  | error e =>
    rw [isInternalPanic_error]
    exact ParseDetail_noPanic hd
  | ok t => rfl

/-- C2 counterexample: with flags `a-b` and `a_b` both registered and a
config entry named `a_b` processed (nothing provided beforehand),
`Parse` does not fail with the ambiguity error claimed: it succeeds and
sets flag `a_b`, because the `env2flag` table is keyed by the
uppercased derived keys, so the lookup of the lowercase entry name
`a_b` in it finds nothing and only the direct name lookup resolves. -/
theorem C2_counterexample :
    Parse alwaysOk (fun _ => "") cx2Fsys cx2Ctx cx2Fs (some []) =
      Except.ok ⟨[⟨"a-b", ""⟩, ⟨"a_b", "v"⟩], ["a_b"]⟩ := rfl

/-- C2 amended: with flags `a-b` and `a_b` registered, a config entry
named `a_b` resolves uniquely to flag `a_b` (the env-key lookup misses,
its table being keyed by uppercased names) and is set without error;
the ambiguity failure instead arises when the entry name matches one
flag directly and a different flag through the env-key table, as for
entry `A_B` with flags `A_B` and `a-b` registered. -/
theorem C2_amended :
    configStep alwaysOk false cx2Fs.flags false ("") [] cx2Fs ("a_b") "v" =
      Except.ok (⟨[⟨"a-b", ""⟩, ⟨"a_b", "v"⟩], ["a_b"]⟩, [("a_b", "v")]) ∧
    Parse alwaysOk (fun _ => "") cx2Fsys am2Ctx am2Fs (some []) =
      Except.error (ParseError.configFlagAmbiguous ("A_B") "A_B" "a-b") :=
  ⟨rfl, rfl⟩

/-- C3 counterexample: with split delimiter `,` configured and the raw
environment value `,` (non-empty, so not skipped), splitting produces
two empty tokens and the environment phase passes both to `Set`, as
the trace records: the claim that no token reaching `Set` is ever
empty fails. -/
theorem C3_counterexample :
    envPhase alwaysOk cx3Env (",") cx3Fs.flags true ("") [] cx3Fs =
      Except.ok (⟨[⟨"f", ""⟩], ["f", "f"]⟩, [("f", ""), ("f", "")]) := rfl

/-- C3 amended: an absent or empty environment variable is skipped, and
when no split delimiter is configured no `Set` call of the environment
phase ever passes the empty string; when a split delimiter is
configured, the tokens produced by splitting may be empty and are
passed to `Set` as-is. -/
theorem C3_amended (setOk : String → String → Bool) (env : String → String)
    (flags0 : List Flg) (np : Bool) (preStr : String) (provided : List String)
    (fs fs1 : FlagSet) (tr : List (String × String))
    (h : envPhase setOk env ("") flags0 np preStr provided fs = Except.ok (fs1, tr)) :
    ∀ p ∈ tr, p.2.isEmpty = false := by
  unfold envPhase at h
  exact envVisit_nosplit_values setOk env flags0 np preStr provided fs.flags fs fs1 tr h

/-- Witness for the amended C3: with no split delimiter, the raw value
`,` of env var `F` is passed whole and non-empty. -/
theorem C3_amended_witness : ("," : String).isEmpty = false :=
  C3_amended alwaysOk cx3Env cx3Fs.flags true ("") [] cx3Fs ⟨[⟨"f", ","⟩], ["f"]⟩
    [("f", ",")] rfl ("f", ",") (by decide)

/-- C4: for a config entry not skipped by the provided set, the
dual-lookup combine policy holds exactly: neither lookup resolving is a
silent skip under undefined-flag tolerance and otherwise the
undefined-flag error; exactly one resolving uses that flag; both
resolving to the same flag use it without ambiguity error; both
resolving to distinct flags fail with the ambiguity error naming both. -/
theorem C4_dual_lookup (setOk : String → String → Bool) (ignoreU : Bool)
    (flags0 : List Flg) (np : Bool) (preStr : String) (provided : List String)
    (fs : FlagSet) (name value : String) (hnp : name ∉ provided) :
    (fs.lookup name = none → env2flagLookup flags0 np preStr name = none →
      (ignoreU = true →
        configStep setOk ignoreU flags0 np preStr provided fs name value =
          Except.ok (fs, [])) ∧
      (ignoreU = false →
        configStep setOk ignoreU flags0 np preStr provided fs name value =
          Except.error (ParseError.configFlagUndefined name))) ∧
    (∀ g, fs.lookup name = some g → env2flagLookup flags0 np preStr name = none →
      configStep setOk ignoreU flags0 np preStr provided fs name value =
        useFlag setOk provided fs name g.name value) ∧
    (∀ n2, fs.lookup name = none → env2flagLookup flags0 np preStr name = some n2 →
      configStep setOk ignoreU flags0 np preStr provided fs name value =
        useFlag setOk provided fs name n2 value) ∧
    (∀ g n2, fs.lookup name = some g →
      env2flagLookup flags0 np preStr name = some n2 → g.name = n2 →
      configStep setOk ignoreU flags0 np preStr provided fs name value =
        useFlag setOk provided fs name g.name value) ∧
    (∀ g n2, fs.lookup name = some g →
      env2flagLookup flags0 np preStr name = some n2 → g.name ≠ n2 →
      configStep setOk ignoreU flags0 np preStr provided fs name value =
        Except.error (ParseError.configFlagAmbiguous name g.name n2)) := by
  refine ⟨?_, ?_, ?_, ?_, ?_⟩
  · intro h1 h2
    constructor
    · intro hig
      simp [configStep, if_neg hnp, h1, h2, hig]
    · intro hig
      simp [configStep, if_neg hnp, h1, h2, hig]
  · intro g h1 h2
    simp [configStep, if_neg hnp, h1, h2]
  · intro n2 h1 h2
    simp [configStep, if_neg hnp, h1, h2]
  · intro g n2 h1 h2 hg
    simp [configStep, if_neg hnp, h1, h2, if_pos hg]
  · intro g n2 h1 h2 hg
    simp [configStep, if_neg hnp, h1, h2, if_neg hg]

/-- Witness for C4 at the genuinely ambiguous instance: entry `A_B`
resolves directly to flag `A_B` and through the env-key table to flag
`a-b`. -/
theorem C4_dual_lookup_witness :
    configStep alwaysOk false am2Fs.flags false ("") [] am2Fs ("A_B") "v" =
      Except.error (ParseError.configFlagAmbiguous ("A_B") "A_B" "a-b") :=
  (C4_dual_lookup alwaysOk false am2Fs.flags false ("") [] am2Fs ("A_B") "v"
    (by decide)).2.2.2.2 ⟨"A_B", ""⟩ "a-b" (by decide) (by decide) (by decide)

/-- C5: the config-file path precedence: a non-empty explicit path
overrides everything; otherwise the current value of the designated
config-file flag is used when one is named and registered; otherwise
the path is empty and the phase is skipped; and without a configured
parser phase C is skipped no matter what path resolves. -/
theorem C5_path_resolution :
    (∀ (p flagName : String) (fs : FlagSet), p ≠ "" →
      resolveConfigFile (some p) flagName fs = p) ∧
    (∀ (via : Option String) (flagName : String) (fs : FlagSet) (g : Flg),
      via.getD ("") = "" → flagName ≠ "" → fs.lookup flagName = some g →
      resolveConfigFile via flagName fs = g.value) ∧
    (∀ (via : Option String) (flagName : String) (fs : FlagSet),
      via.getD ("") = "" → (flagName = "" ∨ fs.lookup flagName = none) →
      resolveConfigFile via flagName fs = "") ∧
    (∀ (setOk : String → String → Bool) (fsys : String → FileResult)
      (flags0 : List Flg) (ctx : Context) (provided : List String) (fs : FlagSet),
      ctx.configFileParserFn = none →
      configPhase setOk fsys flags0 ctx provided fs = Except.ok (fs, [])) ∧
    (∀ (setOk : String → String → Bool) (fsys : String → FileResult)
      (flags0 : List Flg) (ctx : Context) (provided : List String) (fs : FlagSet),
      resolveConfigFile ctx.configFileVia ctx.configFileFlagName fs = "" →
      configPhase setOk fsys flags0 ctx provided fs = Except.ok (fs, [])) := by
  refine ⟨?_, ?_, ?_, ?_, ?_⟩
  · intro p flagName fs hp
    simp [resolveConfigFile, hp]
  · intro via flagName fs g hvia hfn hlook
    simp [resolveConfigFile, hvia, hfn, hlook]
  · intro via flagName fs hvia hcase
    rcases hcase with hfn | hlook
    · simp [resolveConfigFile, hvia, hfn]
    · simp [resolveConfigFile, hvia, hlook]
  · intro setOk fsys flags0 ctx provided fs hpar
    simp [configPhase, hpar]
  · intro setOk fsys flags0 ctx provided fs hcf
    cases hpar : ctx.configFileParserFn with
    | none => simp [configPhase, hpar]
    | some reader => simp [configPhase, hpar, hcf]

/-- Witness for C5: an explicit non-empty path wins. -/
theorem C5_path_resolution_witness :
    resolveConfigFile (some ("cfg")) "" w1Fs = "cfg" :=
  C5_path_resolution.1 ("cfg") "" w1Fs (by decide)

/-- C6: with a parser configured and a non-empty resolved path, a
nonexistent file makes `Parse` succeed with the config phase mutating
no flag when missing-file tolerance is on, and makes `Parse` return
the open error when it is off; any open failure other than
non-existence aborts with the open error regardless of tolerance. -/
theorem C6_missing_file (setOk : String → String → Bool) (env : String → String)
    (fsys : String → FileResult) (ctx : Context) (fs fsA fsB : FlagSet)
    (args : Option (List (String × String))) (envTr : List (String × String))
    (reader : Reader)
    (hA : cmdlinePhase setOk fs args = Except.ok fsA)
    (hB : envPhaseIfEnabled setOk env ctx fs.flags fsA.actual fsA =
      Except.ok (fsB, envTr))
    (hpar : ctx.configFileParserFn = some reader)
    (hcf : resolveConfigFile ctx.configFileVia ctx.configFileFlagName fsB ≠ "") :
    (fsys (resolveConfigFile ctx.configFileVia ctx.configFileFlagName fsB) =
        FileResult.notExist →
      (ctx.allowMissingConfigFile = true →
        Parse setOk env fsys ctx fs args = Except.ok fsB) ∧
      (ctx.allowMissingConfigFile = false →
        Parse setOk env fsys ctx fs args = Except.error (ParseError.configFileOpen
          (resolveConfigFile ctx.configFileVia ctx.configFileFlagName fsB)))) ∧
    (∀ m, fsys (resolveConfigFile ctx.configFileVia ctx.configFileFlagName fsB) =
        FileResult.otherError m →
      Parse setOk env fsys ctx fs args =
        Except.error (ParseError.configFileOpen m)) := by
  constructor
  · intro hne
    constructor
    · intro hmiss
      unfold Parse ParseDetail configPhase
      simp [hA, hB, hpar, hcf, hne, hmiss]
    · intro hmiss
      unfold Parse ParseDetail configPhase
      simp [hA, hB, hpar, hcf, hne, hmiss]
  · intro m hoth
    unfold Parse ParseDetail configPhase
    simp [hA, hB, hpar, hcf, hoth]

/-- Witness for C6: tolerance enabled, path `cfg` nonexistent: `Parse`
succeeds and returns the flag set untouched by the config phase. -/
theorem C6_missing_file_witness :
    Parse alwaysOk (fun _ => "") (fun _ => FileResult.notExist) c6Ctx w1Fs (some []) =
      Except.ok w1Fs :=
  ((C6_missing_file alwaysOk (fun _ => "") (fun _ => FileResult.notExist) c6Ctx
    w1Fs w1Fs w1Fs (some []) [] w1Reader rfl rfl rfl (by decide)).1 rfl).1 rfl

/-- C7: the env-key derivation uppercases the flag name, replaces every
`-`, `.` and `/` with `_`, leaves the result as-is when no-prefix is
set or the prefix is empty, and otherwise prepends the uppercased
prefix and `_`; it agrees with the spec's stated rule for every name,
prefix and no-prefix setting, and on the spec's examples `log-level`
with prefix `APP` and with no-prefix. -/
theorem C7_env_key :
    (∀ (np : Bool) (preStr name : String),
      envKeyOf np preStr name = envKeySpecRule np preStr name) ∧
    envKeyOf false ("APP") "log-level" = "APP_LOG_LEVEL" ∧
    envKeyOf true ("APP") "log-level" = "LOG_LEVEL" :=
  ⟨fun _ _ _ => rfl, by decide, by decide⟩

/-- C8: the example line-oriented reader emits exactly `(name, "a b")`
for the line `name = "a b" # comment`; emits nothing and reports a
format error for `key=`; and for every non-empty non-comment line it
splits at the first `=` into a trimmed name and trimmed value,
erroring exactly when there is no `=` or either side trims to empty,
and otherwise emitting the trimmed name with the post-processed
trimmed value. -/
theorem C8_reader :
    EnvParser ["name = \"a b\" # comment"] = ([("name", "a b")], none) ∧
    EnvParser ["key="] = ([], some ("invalid line: key=")) ∧
    ∀ raw : String, goTrimSpace raw.data ≠ [] →
      (goTrimSpace raw.data).head? ≠ some '#' →
      (splitAtFirst '=' (goTrimSpace raw.data) = none →
        envParseLine raw =
          LineResult.lineError ("invalid line: " ++ String.mk (goTrimSpace raw.data))) ∧
      (∀ n0 v0, splitAtFirst '=' (goTrimSpace raw.data) = some (n0, v0) →
        (goTrimSpace n0 = [] →
          envParseLine raw =
            LineResult.lineError ("invalid line: " ++ String.mk (goTrimSpace raw.data))) ∧
        (goTrimSpace n0 ≠ [] → goTrimSpace v0 = [] →
          envParseLine raw =
            LineResult.lineError ("invalid line: " ++ String.mk (goTrimSpace raw.data))) ∧
        (goTrimSpace n0 ≠ [] → goTrimSpace v0 ≠ [] →
          envParseLine raw = LineResult.entry (String.mk (goTrimSpace n0))
            (String.mk (postprocessValue (goTrimSpace v0))))) := by
  refine ⟨rfl, rfl, ?_⟩
  intro raw hne hhash
  constructor
  · intro hsplit
    simp [envParseLine, if_neg hne, if_neg hhash, hsplit]
  · intro n0 v0 hsplit
    refine ⟨?_, ?_, ?_⟩
    · intro hn0
      simp [envParseLine, if_neg hne, if_neg hhash, hsplit, hn0]
    · intro hn0 hv0
      simp [envParseLine, if_neg hne, if_neg hhash, hsplit, hn0, hv0]
    · intro hn0 hv0
      simp [envParseLine, if_neg hne, if_neg hhash, hsplit, hn0, hv0]

/-- Witness for C8's general split rule on the line `a=b`. -/
theorem C8_reader_witness : envParseLine ("a=b") = LineResult.entry ("a") "b" :=
  ((C8_reader.2.2 ("a=b") (by decide) (by decide)).2 ['a'] ['b']
    (by decide)).2.2 (by decide) (by decide)

end FF
